import Mathlib

/-!
Verification development for the DWN (Decentralized Web Node) message-processing
core of the dwn-sdk-js repository.

The development shallowly embeds two subsystems:

1. The permissions revocation state machine (`handleRevoke`): the handler code
   itself is not part of the source excerpt (only its functional tests are), so
   it is modelled from the specification's decision table (spec section 4.3),
   whose rows are evaluated top to bottom.

2. The protocol-based authorization evaluator
   (`src/core/protocol-authorization.ts`): each private static method of the
   `ProtocolAuthorization` class is translated to an executable Lean function
   over an `Except` monad, with JavaScript `TypeError`s (property access on
   `undefined`) modelled by the distinguished error value `DwnErr.typeError`.

JavaScript string comparison (used for `messageTimestamp` and CID ordering) and
`String.prototype.split` are re-implemented structurally over `String.data` so
that every definition evaluates inside the kernel.
-/

/-- Lexicographic comparison of character lists, mirroring JavaScript's
`<` on strings (code-unit order; all CIDs and RFC 3339 timestamps here are
ASCII, where code-unit order and scalar-value order agree). -/
def charListLtb : List Char → List Char → Bool
  | [], [] => false
  | [], _ :: _ => true
  | _ :: _, [] => false
  | a :: as, b :: bs =>
    if a < b then true
    else if b < a then false
    else charListLtb as bs

/-- Strict lexicographic order on strings, as JavaScript compares CIDs and
timestamps. -/
def strLt (a b : String) : Prop := charListLtb a.data b.data = true

instance (a b : String) : Decidable (strLt a b) := inferInstanceAs (Decidable (_ = _))

theorem charListLtb_irrefl (l : List Char) : charListLtb l l = false := by
  induction l with
  | nil => rfl
  | cons a as ih => simp [charListLtb, ih]

theorem charListLtb_asymm (a b : List Char) (h : charListLtb a b = true) :
    charListLtb b a = false := by
  induction a generalizing b with
  | nil =>
    cases b with
    | nil => simp [charListLtb] at h
    | cons y ys => simp [charListLtb]
  | cons x xs ih =>
    cases b with
    | nil => simp [charListLtb] at h
    | cons y ys =>
      by_cases h1 : x < y
      · have h2 : ¬ y < x := lt_asymm h1
        simp [charListLtb, h1, h2]
      · by_cases h2 : y < x
        · simp [charListLtb, h1, h2] at h
        · simp [charListLtb, h1, h2] at h ⊢
          exact ih ys h

theorem charListLtb_trans (a b c : List Char) (hab : charListLtb a b = true)
    (hbc : charListLtb b c = true) : charListLtb a c = true := by
  induction a generalizing b c with
  | nil =>
    cases c with
    | nil =>
      cases b with
      | nil => exact hab
      | cons y ys => simp [charListLtb] at hbc
    | cons z zs => simp [charListLtb]
  | cons x xs ih =>
    cases b with
    | nil => simp [charListLtb] at hab
    | cons y ys =>
      cases c with
      | nil => simp [charListLtb] at hbc
      | cons z zs =>
        by_cases h1 : x < y
        · by_cases h2 : y < z
          · simp [charListLtb, lt_trans h1 h2]
          · by_cases h3 : z < y
            · simp [charListLtb, h2, h3] at hbc
            · have hyz : y = z := le_antisymm (le_of_not_lt h3) (le_of_not_lt h2)
              simp [charListLtb, hyz ▸ h1]
        · by_cases h2 : y < x
          · simp [charListLtb, h1, h2] at hab
          · have hxy : x = y := le_antisymm (le_of_not_lt h2) (le_of_not_lt h1)
            simp [charListLtb, h1, h2] at hab
            by_cases h3 : y < z
            · simp [charListLtb, hxy ▸ h3]
            · by_cases h4 : z < y
              · simp [charListLtb, h3, h4] at hbc
              · simp [charListLtb, h3, h4] at hbc
                have h5 : ¬ x < z := hxy ▸ h3
                have h6 : ¬ z < x := hxy ▸ h4
                simp [charListLtb, h5, h6]
                exact ih ys zs hab hbc

theorem charListLtb_total (a b : List Char) (hab : charListLtb a b = false)
    (hba : charListLtb b a = false) : a = b := by
  induction a generalizing b with
  | nil =>
    cases b with
    | nil => rfl
    | cons y ys => simp [charListLtb] at hab
  | cons x xs ih =>
    cases b with
    | nil => simp [charListLtb] at hba
    | cons y ys =>
      by_cases h1 : x < y
      · simp [charListLtb, h1] at hab
      · by_cases h2 : y < x
        · simp [charListLtb, h2, lt_asymm h2] at hba
        · have hxy : x = y := le_antisymm (le_of_not_lt h2) (le_of_not_lt h1)
          simp [charListLtb, h1, h2] at hab hba
          rw [hxy, ih ys hab hba]

theorem strLt_irrefl (a : String) : ¬ strLt a a := by
  simp [strLt, charListLtb_irrefl]

theorem strLt_asymm (a b : String) (h : strLt a b) : ¬ strLt b a := by
  simp [strLt] at h ⊢
  simp [charListLtb_asymm _ _ h]

theorem strLt_trans (a b c : String) (hab : strLt a b) (hbc : strLt b c) : strLt a c :=
  charListLtb_trans _ _ _ hab hbc

theorem strLt_total (a b : String) (hab : ¬ strLt a b) (hba : ¬ strLt b a) : a = b := by
  simp [strLt] at hab hba
  exact String.ext (charListLtb_total _ _ hab hba)

/-- Lexicographic order on `(messageTimestamp, message CID)` pairs, the total
order used for convergence throughout the engine (spec: "timestamp ASC, cid
ASC"). -/
def pairLt (a b : String × String) : Prop :=
  strLt a.1 b.1 ∨ (a.1 = b.1 ∧ strLt a.2 b.2)

instance (a b : String × String) : Decidable (pairLt a b) :=
  inferInstanceAs (Decidable (_ ∨ _))

theorem pairLt_irrefl (a : String × String) : ¬ pairLt a a := by
  rintro (h | ⟨_, h⟩) <;> exact strLt_irrefl _ h

theorem pairLt_asymm (a b : String × String) (h : pairLt a b) : ¬ pairLt b a := by
  rcases h with h | ⟨h1, h2⟩
  · rintro (h' | ⟨h1', h2'⟩)
    · exact strLt_asymm _ _ h h'
    · exact strLt_irrefl _ (h1' ▸ h)
  · rintro (h' | ⟨h1', h2'⟩)
    · exact strLt_irrefl _ (h1 ▸ h')
    · exact strLt_asymm _ _ h2 h2'

theorem pairLt_trans (a b c : String × String) (hab : pairLt a b) (hbc : pairLt b c) :
    pairLt a c := by
  rcases hab with h | ⟨h1, h2⟩
  · rcases hbc with h' | ⟨h1', h2'⟩
    · exact Or.inl (strLt_trans _ _ _ h h')
    · exact Or.inl (h1' ▸ h)
  · rcases hbc with h' | ⟨h1', h2'⟩
    · exact Or.inl (h1 ▸ h')
    · exact Or.inr ⟨h1.trans h1', strLt_trans _ _ _ h2 h2'⟩

theorem pairLt_trichotomy (a b : String × String) (h : a.2 ≠ b.2) :
    pairLt a b ∨ pairLt b a := by
  by_cases h1 : strLt a.1 b.1
  · exact Or.inl (Or.inl h1)
  · by_cases h2 : strLt b.1 a.1
    · exact Or.inr (Or.inl h2)
    · have heq : a.1 = b.1 := strLt_total _ _ h1 h2
      by_cases h3 : strLt a.2 b.2
      · exact Or.inl (Or.inr ⟨heq, h3⟩)
      · by_cases h4 : strLt b.2 a.2
        · exact Or.inr (Or.inr ⟨heq.symm, h4⟩)
        · exact absurd (strLt_total _ _ h3 h4) h

/-- A stored `PermissionsGrant` message, reduced to the fields the revocation
state machine consults. Identity is its message CID. -/
structure PermissionsGrant where
  cid : String
  messageTimestamp : String
  grantedBy : String
  grantedTo : String
  grantedFor : String
  author : String
deriving DecidableEq

/-- A `PermissionsRevoke` message citing a `permissionsGrantId` (the grant's
CID) and carrying its own `messageTimestamp`. Identity is its message CID. -/
structure PermissionsRevoke where
  cid : String
  messageTimestamp : String
  permissionsGrantId : String
  author : String
deriving DecidableEq

/-- The revocation ordering key `(messageTimestamp, cid)`. -/
def revKey (r : PermissionsRevoke) : String × String := (r.messageTimestamp, r.cid)

/-- The convergent order on revokes: earliest `messageTimestamp`, ties broken by
lowest lexicographic message CID. -/
def revLt (a b : PermissionsRevoke) : Prop := pairLt (revKey a) (revKey b)

instance (a b : PermissionsRevoke) : Decidable (revLt a b) :=
  inferInstanceAs (Decidable (pairLt _ _))

theorem revLt_irrefl (a : PermissionsRevoke) : ¬ revLt a a := pairLt_irrefl _

theorem revLt_asymm (a b : PermissionsRevoke) (h : revLt a b) : ¬ revLt b a :=
  pairLt_asymm _ _ h

theorem revLt_trans (a b c : PermissionsRevoke) (hab : revLt a b) (hbc : revLt b c) :
    revLt a c := pairLt_trans _ _ _ hab hbc

theorem revLt_trichotomy (a b : PermissionsRevoke) (h : a.cid ≠ b.cid) :
    revLt a b ∨ revLt b a := pairLt_trichotomy _ _ h

/-- Reply statuses of the revocation handler, with the structured error codes
named by the spec. -/
inductive RevokeStatus where
  | accepted
  | grantNotFound
  | revokeBeforeGrant
  | unauthorizedRevoke
  | superseded
deriving DecidableEq

/-- HTTP-aligned status code of each reply (202 accept, 400 malformed
reference, 401 unauthorized, 409 conflict). -/
def statusCode : RevokeStatus → Nat
  | .accepted => 202
  | .grantNotFound => 400
  | .revokeBeforeGrant => 400
  | .unauthorizedRevoke => 401
  | .superseded => 409

/-- The tenant-scoped persistent state the revocation handler reads and
writes: the Message Store's grants and revokes, and the Event Log (a CID
sequence). -/
structure PermState where
  grants : List PermissionsGrant
  revokes : List PermissionsRevoke
  eventLog : List String
deriving DecidableEq

/-- Modelled from the spec: `PermissionsRevokeHandler.handle` is absent from
the source excerpt (only `src/tests/handlers/permissions-revoke.spec.ts` is
present), so the accept rules of spec section 4.3 are modelled directly. The
rows of the decision table are evaluated top to bottom: grant lookup by
`permissionsGrantId`, the revoke-before-grant timestamp check, the
`grantedFor` author check, the superseded check against any stored revoke with
a smaller `(messageTimestamp, cid)` key, and finally acceptance, which deletes
every stored revoke for the grant with a larger key, purges the deleted CIDs
from the Event Log, stores the incoming revoke (idempotent by CID) and appends
its CID to the Event Log. -/
def handleRevoke (st : PermState) (r : PermissionsRevoke) : RevokeStatus × PermState :=
  match st.grants.find? (fun g => g.cid == r.permissionsGrantId) with
  | none => (RevokeStatus.grantNotFound, st)
  | some grant =>
    if strLt r.messageTimestamp grant.messageTimestamp then
      (RevokeStatus.revokeBeforeGrant, st)
    else if r.author ≠ grant.grantedFor then
      (RevokeStatus.unauthorizedRevoke, st)
    else
      let existing := st.revokes.filter (fun e => e.permissionsGrantId == r.permissionsGrantId)
      if existing.any (fun e => decide (revLt e r)) then
        (RevokeStatus.superseded, st)
      else
        let superseded := existing.filter (fun e => decide (revLt r e))
        let remaining := st.revokes.filter
          (fun e => !(e.permissionsGrantId == r.permissionsGrantId && decide (revLt r e)))
        let newRevokes := remaining.filter (fun e => e.cid != r.cid) ++ [r]
        let newLog :=
          (st.eventLog.filter (fun c => !(superseded.any (fun e => e.cid == c)))) ++ [r.cid]
        (RevokeStatus.accepted, PermState.mk st.grants newRevokes newLog)

/-- Sequential processing of a batch of revokes, as `processMessage` serializes
them per tenant. -/
def processRevokes (st : PermState) (rs : List PermissionsRevoke) : PermState :=
  rs.foldl (fun s r => (handleRevoke s r).2) st

theorem handleRevoke_accept
    (s : PermState) (g : PermissionsGrant) (r : PermissionsRevoke)
    (hg : s.grants.find? (fun x => x.cid == r.permissionsGrantId) = some g)
    (hts : ¬ strLt r.messageTimestamp g.messageTimestamp)
    (hauthor : r.author = g.grantedFor)
    (hnone : ∀ e ∈ s.revokes, e.permissionsGrantId = r.permissionsGrantId → ¬ revLt e r) :
    handleRevoke s r =
      (RevokeStatus.accepted,
        PermState.mk s.grants
          ((s.revokes.filter (fun e =>
              !(e.permissionsGrantId == r.permissionsGrantId && decide (revLt r e)))).filter
            (fun e => e.cid != r.cid) ++ [r])
          ((s.eventLog.filter (fun c =>
              !(((s.revokes.filter
                    (fun e => e.permissionsGrantId == r.permissionsGrantId)).filter
                  (fun e => decide (revLt r e))).any (fun e => e.cid == c)))) ++ [r.cid])) := by
  have hany : ((s.revokes.filter
      (fun e => e.permissionsGrantId == r.permissionsGrantId)).any
      (fun e => decide (revLt e r))) = false := by
    rw [List.any_eq_false]
    intro e he
    rw [List.mem_filter] at he
    simp only [decide_eq_true_eq]
    exact hnone e he.1 (by simpa using he.2)
  unfold handleRevoke
  rw [hg]
  simp only [if_neg hts, if_neg (show ¬ (r.author ≠ g.grantedFor) by simp [hauthor]),
    hany, Bool.false_eq_true, if_false]

theorem handleRevoke_superseded
    (s : PermState) (g : PermissionsGrant) (r rPrev : PermissionsRevoke)
    (hg : s.grants.find? (fun x => x.cid == r.permissionsGrantId) = some g)
    (hts : ¬ strLt r.messageTimestamp g.messageTimestamp)
    (hauthor : r.author = g.grantedFor)
    (hmem : rPrev ∈ s.revokes)
    (hgid : rPrev.permissionsGrantId = r.permissionsGrantId)
    (hlt : revLt rPrev r) :
    handleRevoke s r = (RevokeStatus.superseded, s) := by
  have hany : ((s.revokes.filter
      (fun e => e.permissionsGrantId == r.permissionsGrantId)).any
      (fun e => decide (revLt e r))) = true := by
    rw [List.any_eq_true]
    refine ⟨rPrev, ?_, by simpa using hlt⟩
    rw [List.mem_filter]
    exact ⟨hmem, by simpa using hgid⟩
  unfold handleRevoke
  rw [hg]
  simp only [if_neg hts, if_neg (show ¬ (r.author ≠ g.grantedFor) by simp [hauthor]),
    hany, if_true]

theorem length_filter_ne_add_count (l : List String) (x : String) :
    (l.filter (fun c => c != x)).length + l.count x = l.length := by
  induction l with
  | nil => rfl
  | cons c t ih =>
    by_cases h : c = x
    · subst h
      simp only [List.filter_cons, bne_self_eq_false, Bool.false_eq_true, if_false,
        List.count_cons_self, List.length_cons]
      omega
    · have hb : (c != x) = true := by simpa using h
      rw [List.filter_cons, if_pos hb, List.length_cons, List.count_cons_of_ne (Ne.symm h),
        List.length_cons]
      omega

/-- Claim C2: when a PermissionsRevoke R arrives for grant G and a stored
revoke R' for G has a (messageTimestamp, CID) key strictly greater than R's in
the lexicographic pair order, R is accepted with status 202, R' is deleted from
the Message Store, R's CID is appended to the Event Log and R''s CID is purged
from it, so the event-log length is unchanged and its last entry is cid(R). -/
theorem retroactive_supersession_C2
    (s : PermState) (g : PermissionsGrant) (r rPrev : PermissionsRevoke)
    (hg : s.grants.find? (fun x => x.cid == r.permissionsGrantId) = some g)
    (hts : ¬ strLt r.messageTimestamp g.messageTimestamp)
    (hauthor : r.author = g.grantedFor)
    (hstored : s.revokes.filter (fun e => e.permissionsGrantId == r.permissionsGrantId) = [rPrev])
    (hgt : revLt r rPrev)
    (hcount : s.eventLog.count rPrev.cid = 1) :
    (handleRevoke s r).1 = RevokeStatus.accepted ∧
    statusCode (handleRevoke s r).1 = 202 ∧
    (handleRevoke s r).2.revokes.filter
      (fun e => e.permissionsGrantId == r.permissionsGrantId) = [r] ∧
    rPrev ∉ (handleRevoke s r).2.revokes ∧
    (handleRevoke s r).2.eventLog
      = s.eventLog.filter (fun c => c != rPrev.cid) ++ [r.cid] ∧
    (handleRevoke s r).2.eventLog.length = s.eventLog.length ∧
    (handleRevoke s r).2.eventLog.getLast? = some r.cid := by
  have hmemPrev : ∀ e ∈ s.revokes, e.permissionsGrantId = r.permissionsGrantId → e = rPrev := by
    intro e he hgid
    have hin : e ∈ s.revokes.filter (fun e => e.permissionsGrantId == r.permissionsGrantId) := by
      rw [List.mem_filter]
      exact ⟨he, by simpa using hgid⟩
    rw [hstored] at hin
    simpa using hin
  have hnone : ∀ e ∈ s.revokes, e.permissionsGrantId = r.permissionsGrantId → ¬ revLt e r := by
    intro e he hgid
    rw [hmemPrev e he hgid]
    exact revLt_asymm _ _ hgt
  have hred := handleRevoke_accept s g r hg hts hauthor hnone
  have hsup : (s.revokes.filter
      (fun e => e.permissionsGrantId == r.permissionsGrantId)).filter
        (fun e => decide (revLt r e)) = [rPrev] := by
    rw [hstored]
    simp [List.filter, hgt]
  have hAfalse : (!(rPrev.permissionsGrantId == r.permissionsGrantId
      && decide (revLt r rPrev))) = false := by
    have hPrevGid : rPrev.permissionsGrantId = r.permissionsGrantId := by
      have hin : rPrev ∈ s.revokes.filter
          (fun e => e.permissionsGrantId == r.permissionsGrantId) := by
        rw [hstored]
        exact List.mem_singleton_self _
      rw [List.mem_filter] at hin
      simpa using hin.2
    simp [hPrevGid, hgt]
  have hfilterRev : (handleRevoke s r).2.revokes.filter
      (fun e => e.permissionsGrantId == r.permissionsGrantId) = [r] := by
    rw [hred]
    simp only [List.filter_append]
    have h2 : ((s.revokes.filter (fun e =>
        !(e.permissionsGrantId == r.permissionsGrantId && decide (revLt r e)))).filter
          (fun e => e.cid != r.cid)).filter
            (fun e => e.permissionsGrantId == r.permissionsGrantId) = [] := by
      rw [List.filter_eq_nil_iff]
      intro e he
      rw [List.mem_filter] at he
      obtain ⟨heA, _⟩ := he
      rw [List.mem_filter] at heA
      obtain ⟨heMem, hePred⟩ := heA
      intro hgid
      have hge : e.permissionsGrantId = r.permissionsGrantId := by simpa using hgid
      rw [hmemPrev e heMem hge] at hePred
      rw [hAfalse] at hePred
      exact Bool.false_ne_true hePred
    rw [h2]
    simp
  have hlog : (handleRevoke s r).2.eventLog
      = s.eventLog.filter (fun c => c != rPrev.cid) ++ [r.cid] := by
    rw [hred]
    simp only [hsup]
    refine congrArg (fun l => l ++ [r.cid]) ?_
    refine List.filter_congr ?_
    intro c _
    simp [List.any_cons, bne, eq_comm]
  refine ⟨by rw [hred], by rw [hred]; rfl, hfilterRev, ?_, hlog, ?_, ?_⟩
  · intro hc
    rw [hred] at hc
    simp only at hc
    rw [List.mem_append] at hc
    rcases hc with hc | hc
    · rw [List.mem_filter] at hc
      obtain ⟨hcA, _⟩ := hc
      rw [List.mem_filter] at hcA
      rw [hAfalse] at hcA
      exact Bool.false_ne_true hcA.2
    · have : rPrev = r := by simpa using hc
      exact revLt_irrefl r (this ▸ hgt)
  · rw [hlog]
    have hlen := length_filter_ne_add_count s.eventLog rPrev.cid
    rw [hcount] at hlen
    rw [List.length_append]
    simp only [List.length_singleton]
    omega
  · rw [hlog]
    simp [List.getLast?_concat]

/-- Claim C3 (amended): when a PermissionsRevoke R arrives for grant G, passes
the earlier rows of the decision table (the grant exists, R's timestamp is not
earlier than the grant's, and R's author equals the grant's grantedFor), and
the Message Store holds a revoke R' for G with a strictly smaller
(messageTimestamp, CID) key, processing R returns status 409 and changes no
stored state. -/
theorem superseded_rejection_C3
    (s : PermState) (g : PermissionsGrant) (r rPrev : PermissionsRevoke)
    (hg : s.grants.find? (fun x => x.cid == r.permissionsGrantId) = some g)
    (hts : ¬ strLt r.messageTimestamp g.messageTimestamp)
    (hauthor : r.author = g.grantedFor)
    (hmem : rPrev ∈ s.revokes)
    (hgid : rPrev.permissionsGrantId = r.permissionsGrantId)
    (hlt : revLt rPrev r) :
    handleRevoke s r = (RevokeStatus.superseded, s) ∧
    statusCode (handleRevoke s r).1 = 409 := by
  have h := handleRevoke_superseded s g r rPrev hg hts hauthor hmem hgid hlt
  exact ⟨h, by rw [h]; rfl⟩

/-- Claim C4 (amended): for every PermissionsRevoke R citing an existing grant
G whose timestamp is not earlier than G's, if R's author differs from G's
grantedFor then processing R returns status 401 with the UnauthorizedRevoke
error code and leaves the state (hence the grant) unchanged. -/
theorem unauthorized_revoke_C4
    (s : PermState) (g : PermissionsGrant) (r : PermissionsRevoke)
    (hg : s.grants.find? (fun x => x.cid == r.permissionsGrantId) = some g)
    (hts : ¬ strLt r.messageTimestamp g.messageTimestamp)
    (hbad : r.author ≠ g.grantedFor) :
    handleRevoke s r = (RevokeStatus.unauthorizedRevoke, s) ∧
    statusCode (handleRevoke s r).1 = 401 := by
  have h : handleRevoke s r = (RevokeStatus.unauthorizedRevoke, s) := by
    unfold handleRevoke
    rw [hg]
    simp only [if_neg hts, if_pos hbad]
  exact ⟨h, by rw [h]; rfl⟩

/-- Concrete grant used by the revocation scenarios: Alice grants Bob, on
Alice's own DWN. -/
def wGrant : PermissionsGrant :=
  PermissionsGrant.mk "bafygrant" "2024-01-01T00:00:00.000000Z"
    "did:alice" "did:bob" "did:alice" "did:alice"

/-- A revoke with the later timestamp, pre-stored in the C2 scenario. -/
def wRevLate : PermissionsRevoke :=
  PermissionsRevoke.mk "bafyrevlate" "2024-01-03T00:00:00.000000Z" "bafygrant" "did:alice"

/-- A revoke with the earlier timestamp, submitted after `wRevLate`. -/
def wRevEarly : PermissionsRevoke :=
  PermissionsRevoke.mk "bafyrevearly" "2024-01-02T00:00:00.000000Z" "bafygrant" "did:alice"

/-- State after the grant and the later revoke have been accepted. -/
def wStateC2 : PermState :=
  PermState.mk [wGrant] [wRevLate] ["bafygrant", "bafyrevlate"]

theorem retroactive_supersession_C2_witness :
    (handleRevoke wStateC2 wRevEarly).1 = RevokeStatus.accepted ∧
    (handleRevoke wStateC2 wRevEarly).2.revokes.filter
      (fun e => e.permissionsGrantId == wRevEarly.permissionsGrantId) = [wRevEarly] ∧
    (handleRevoke wStateC2 wRevEarly).2.eventLog.length = wStateC2.eventLog.length ∧
    (handleRevoke wStateC2 wRevEarly).2.eventLog.getLast? = some wRevEarly.cid := by
  have h := retroactive_supersession_C2 wStateC2 wGrant wRevEarly wRevLate
    (by decide) (by decide) (by decide) (by decide) (by decide) (by decide)
  exact ⟨h.1, h.2.2.1, h.2.2.2.2.2.1, h.2.2.2.2.2.2⟩

/-- A stored revoke with the smaller key in the C3 scenario. -/
def wRevSmall : PermissionsRevoke :=
  PermissionsRevoke.mk "bafyaaa" "2024-01-02T00:00:00.000000Z" "bafygrant" "did:alice"

/-- An incoming revoke with the larger key in the C3 scenario. -/
def wRevBig : PermissionsRevoke :=
  PermissionsRevoke.mk "bafybbb" "2024-01-03T00:00:00.000000Z" "bafygrant" "did:alice"

/-- State after the grant and the smaller-key revoke have been accepted. -/
def wStateC3 : PermState :=
  PermState.mk [wGrant] [wRevSmall] ["bafygrant", "bafyaaa"]

/-- An incoming revoke for the same grant whose author is not the grant's
grantedFor, although a smaller-key revoke is stored. -/
def wRevEve : PermissionsRevoke :=
  PermissionsRevoke.mk "bafyccc" "2024-01-03T00:00:00.000000Z" "bafygrant" "did:eve"

theorem superseded_rejection_C3_counterexample :
    wStateC3.grants.find? (fun x => x.cid == wRevEve.permissionsGrantId) = some wGrant ∧
    wRevSmall ∈ wStateC3.revokes ∧
    wRevSmall.permissionsGrantId = wRevEve.permissionsGrantId ∧
    revLt wRevSmall wRevEve ∧
    (handleRevoke wStateC3 wRevEve).1 ≠ RevokeStatus.superseded ∧
    statusCode (handleRevoke wStateC3 wRevEve).1 = 401 := by decide

theorem superseded_rejection_C3_witness :
    handleRevoke wStateC3 wRevBig = (RevokeStatus.superseded, wStateC3) ∧
    statusCode (handleRevoke wStateC3 wRevBig).1 = 409 :=
  superseded_rejection_C3 wStateC3 wGrant wRevBig wRevSmall
    (by decide) (by decide) (by decide) (by decide) (by decide) (by decide)

/-- State holding only the grant, for the C4 scenarios. -/
def wStateC4 : PermState := PermState.mk [wGrant] [] ["bafygrant"]

/-- A revoke authored by Bob (not the grant's grantedFor) with a timestamp
later than the grant's. -/
def wRevBob : PermissionsRevoke :=
  PermissionsRevoke.mk "bafyddd" "2024-01-02T00:00:00.000000Z" "bafygrant" "did:bob"

/-- A revoke authored by Bob whose timestamp is also earlier than the
grant's. -/
def wRevBobOld : PermissionsRevoke :=
  PermissionsRevoke.mk "bafyeee" "2023-12-31T00:00:00.000000Z" "bafygrant" "did:bob"

theorem unauthorized_revoke_C4_counterexample :
    wStateC4.grants.find? (fun x => x.cid == wRevBobOld.permissionsGrantId) = some wGrant ∧
    wRevBobOld.author ≠ wGrant.grantedFor ∧
    (handleRevoke wStateC4 wRevBobOld).1 ≠ RevokeStatus.unauthorizedRevoke ∧
    statusCode (handleRevoke wStateC4 wRevBobOld).1 = 400 := by decide

theorem unauthorized_revoke_C4_witness :
    handleRevoke wStateC4 wRevBob = (RevokeStatus.unauthorizedRevoke, wStateC4) ∧
    statusCode (handleRevoke wStateC4 wRevBob).1 = 401 :=
  unauthorized_revoke_C4 wStateC4 wGrant wRevBob (by decide) (by decide) (by decide)

theorem handleRevoke_accept_from
    (s : PermState) (g : PermissionsGrant) (r : PermissionsRevoke)
    (hg : s.grants.find? (fun x => x.cid == r.permissionsGrantId) = some g)
    (hts : ¬ strLt r.messageTimestamp g.messageTimestamp)
    (hauthor : r.author = g.grantedFor)
    (hprior : s.revokes.filter (fun e => e.permissionsGrantId == r.permissionsGrantId) = [] ∨
      ∃ m, s.revokes.filter (fun e => e.permissionsGrantId == r.permissionsGrantId) = [m] ∧
        revLt r m) :
    (handleRevoke s r).1 = RevokeStatus.accepted ∧
    (handleRevoke s r).2.grants = s.grants ∧
    (handleRevoke s r).2.revokes.filter
      (fun e => e.permissionsGrantId == r.permissionsGrantId) = [r] := by
  have hmemG : ∀ e ∈ s.revokes, e.permissionsGrantId = r.permissionsGrantId →
      e ∈ s.revokes.filter (fun e => e.permissionsGrantId == r.permissionsGrantId) := by
    intro e he hgid
    rw [List.mem_filter]
    exact ⟨he, by simpa using hgid⟩
  have hnone : ∀ e ∈ s.revokes, e.permissionsGrantId = r.permissionsGrantId → ¬ revLt e r := by
    intro e he hgid
    have hin := hmemG e he hgid
    rcases hprior with hp | ⟨m, hp, hrm⟩
    · rw [hp] at hin
      exact absurd hin (List.not_mem_nil e)
    · rw [hp] at hin
      have : e = m := by simpa using hin
      rw [this]
      exact revLt_asymm _ _ hrm
  have hred := handleRevoke_accept s g r hg hts hauthor hnone
  refine ⟨by rw [hred], by rw [hred], ?_⟩
  rw [hred]
  simp only [List.filter_append]
  have h2 : ((s.revokes.filter (fun e =>
      !(e.permissionsGrantId == r.permissionsGrantId && decide (revLt r e)))).filter
        (fun e => e.cid != r.cid)).filter
          (fun e => e.permissionsGrantId == r.permissionsGrantId) = [] := by
    rw [List.filter_eq_nil_iff]
    intro e he
    rw [List.mem_filter] at he
    obtain ⟨heA, _⟩ := he
    rw [List.mem_filter] at heA
    obtain ⟨heMem, hePred⟩ := heA
    intro hgid
    have hge : e.permissionsGrantId = r.permissionsGrantId := by simpa using hgid
    have hin := hmemG e heMem hge
    rcases hprior with hp | ⟨m, hp, hrm⟩
    · rw [hp] at hin
      exact absurd hin (List.not_mem_nil e)
    · rw [hp] at hin
      have hem : e = m := by simpa using hin
      rw [hem] at hePred
      have hmgid : m.permissionsGrantId = r.permissionsGrantId := hem ▸ hge
      simp [hmgid, hrm] at hePred
  rw [h2]
  simp

theorem minRev_nil (m : PermissionsRevoke) :
    (([] : List PermissionsRevoke).foldl (fun acc x => if revLt x acc then x else acc) m) = m :=
  rfl

/-- The fold computing the revoke with the minimal `(messageTimestamp, cid)`
key among `m :: rs`. -/
def minRev (m : PermissionsRevoke) (rs : List PermissionsRevoke) : PermissionsRevoke :=
  rs.foldl (fun acc x => if revLt x acc then x else acc) m

theorem minRev_cons (m a : PermissionsRevoke) (t : List PermissionsRevoke) :
    minRev m (a :: t) = minRev (if revLt a m then a else m) t := rfl

theorem minRev_mem (rs : List PermissionsRevoke) :
    ∀ m, minRev m rs = m ∨ minRev m rs ∈ rs := by
  induction rs with
  | nil => intro m; exact Or.inl rfl
  | cons a t ih =>
    intro m
    rw [minRev_cons]
    by_cases h : revLt a m
    · rw [if_pos h]
      rcases ih a with h' | h'
      · right
        rw [h']
        exact List.mem_cons_self a t
      · right
        exact List.mem_cons_of_mem _ h'
    · rw [if_neg h]
      rcases ih m with h' | h'
      · exact Or.inl h'
      · right
        exact List.mem_cons_of_mem _ h'

theorem minRev_min (rs : List PermissionsRevoke) :
    ∀ m, (m :: rs).Pairwise (fun a b => a.cid ≠ b.cid) →
      ∀ x, (x = m ∨ x ∈ rs) → (x = minRev m rs ∨ revLt (minRev m rs) x) := by
  induction rs with
  | nil =>
    intro m _ x hx
    rcases hx with rfl | hx
    · exact Or.inl rfl
    · exact absurd hx (List.not_mem_nil x)
  | cons a t ih =>
    intro m hpw x hx
    rw [minRev_cons]
    rw [List.pairwise_cons] at hpw
    obtain ⟨hpw1, hpw2⟩ := hpw
    have hpw2' := hpw2
    rw [List.pairwise_cons] at hpw2'
    obtain ⟨hpw2a, hpw2b⟩ := hpw2'
    by_cases ham : revLt a m
    · rw [if_pos ham]
      rcases hx with rfl | hx
      · rcases ih a hpw2 a (Or.inl rfl) with h' | h'
        · right
          rw [← h']
          exact ham
        · right
          exact revLt_trans _ _ _ h' ham
      · rcases List.mem_cons.mp hx with hxa | hx
        · exact ih a hpw2 x (Or.inl hxa)
        · exact ih a hpw2 x (Or.inr hx)
    · rw [if_neg ham]
      have hpwmt : (m :: t).Pairwise (fun a b => a.cid ≠ b.cid) := by
        rw [List.pairwise_cons]
        exact ⟨fun y hy => hpw1 y (List.mem_cons_of_mem _ hy), hpw2b⟩
      rcases hx with hxm | hx
      · exact ih m hpwmt x (Or.inl hxm)
      · rcases List.mem_cons.mp hx with hxa | hx
        · have hcidma : m.cid ≠ x.cid := hpw1 x (by rw [hxa]; exact List.mem_cons_self a t)
          have hma : revLt m x := by
            rcases revLt_trichotomy m x hcidma with h | h
            · exact h
            · exact absurd (hxa ▸ h) ham
          rcases ih m hpwmt m (Or.inl rfl) with h' | h'
          · right
            rw [← h']
            exact hma
          · right
            exact revLt_trans _ _ _ h' hma
        · exact ih m hpwmt x (Or.inr hx)

theorem processRevokes_filterG (g : PermissionsGrant) :
    ∀ (rs : List PermissionsRevoke) (s : PermState) (m : PermissionsRevoke),
      s.grants.find? (fun x => x.cid == g.cid) = some g →
      s.revokes.filter (fun e => e.permissionsGrantId == g.cid) = [m] →
      (∀ r ∈ rs, r.permissionsGrantId = g.cid ∧
        ¬ strLt r.messageTimestamp g.messageTimestamp ∧ r.author = g.grantedFor) →
      (∀ r ∈ rs, r.cid ≠ m.cid) →
      rs.Pairwise (fun a b => a.cid ≠ b.cid) →
      (processRevokes s rs).revokes.filter (fun e => e.permissionsGrantId == g.cid)
        = [minRev m rs] := by
  intro rs
  induction rs with
  | nil =>
    intro s m _ hf _ _ _
    simpa [processRevokes, minRev] using hf
  | cons r rest ih =>
    intro s m hg hf hall hcid hpw
    obtain ⟨hgid, hts, hauthor⟩ := hall r (List.mem_cons_self r rest)
    have hgr : s.grants.find? (fun x => x.cid == r.permissionsGrantId) = some g := by
      rw [hgid]
      exact hg
    have hf' : s.revokes.filter (fun e => e.permissionsGrantId == r.permissionsGrantId) = [m] := by
      rw [hgid]
      exact hf
    have hmMem : m ∈ s.revokes ∧ m.permissionsGrantId = r.permissionsGrantId := by
      have hin : m ∈ s.revokes.filter
          (fun e => e.permissionsGrantId == r.permissionsGrantId) := by
        rw [hf']
        exact List.mem_singleton_self _
      rw [List.mem_filter] at hin
      exact ⟨hin.1, by simpa using hin.2⟩
    have hmcid : r.cid ≠ m.cid := hcid r (List.mem_cons_self r rest)
    have hproc : processRevokes s (r :: rest) = processRevokes (handleRevoke s r).2 rest := by
      simp [processRevokes]
    rw [List.pairwise_cons] at hpw
    obtain ⟨hpwHead, hpwTail⟩ := hpw
    have hallTail := fun x hx => hall x (List.mem_cons_of_mem _ hx)
    rcases revLt_trichotomy m r (fun hh => hmcid hh.symm) with hmr | hrm
    · -- the stored revoke has the smaller key: incoming is rejected 409
      have hsup := handleRevoke_superseded s g r m hgr hts hauthor hmMem.1 hmMem.2 hmr
      have hmin : minRev m (r :: rest) = minRev m rest := by
        rw [minRev_cons, if_neg (revLt_asymm _ _ hmr)]
      rw [hproc, hsup, hmin]
      exact ih s m hg hf hallTail
        (fun x hx => hcid x (List.mem_cons_of_mem _ hx)) hpwTail
    · -- the incoming revoke has the smaller key: it supersedes the stored one
      have hacc := handleRevoke_accept_from s g r hgr hts hauthor (Or.inr ⟨m, hf', hrm⟩)
      have hg1 : (handleRevoke s r).2.grants.find? (fun x => x.cid == g.cid) = some g := by
        rw [hacc.2.1]
        exact hg
      have hf1 : (handleRevoke s r).2.revokes.filter
          (fun e => e.permissionsGrantId == g.cid) = [r] := by
        have := hacc.2.2
        rw [hgid] at this
        exact this
      have hmin : minRev m (r :: rest) = minRev r rest := by
        rw [minRev_cons, if_pos hrm]
      rw [hproc, hmin]
      exact ih (handleRevoke s r).2 r hg1 hf1 hallTail
        (fun x hx => fun hh => hpwHead x hx hh.symm) hpwTail

/-- Claim C1: for any grant G and any finite set of PermissionsRevoke messages
for G that each individually satisfy the author and timestamp preconditions,
processing them in any order leaves the Message Store containing exactly one
revoke for G, namely the one minimal in the lexicographic
(messageTimestamp, message CID) pair order. The list `rs` ranges over every
enumeration order of the set; distinct messages have distinct CIDs. -/
theorem revoke_convergence_C1
    (st0 : PermState) (g : PermissionsGrant) (rs : List PermissionsRevoke)
    (hg : st0.grants.find? (fun x => x.cid == g.cid) = some g)
    (hempty : st0.revokes.filter (fun e => e.permissionsGrantId == g.cid) = [])
    (hne : rs ≠ [])
    (hall : ∀ r ∈ rs, r.permissionsGrantId = g.cid ∧
      ¬ strLt r.messageTimestamp g.messageTimestamp ∧ r.author = g.grantedFor)
    (hpw : rs.Pairwise (fun a b => a.cid ≠ b.cid)) :
    ∃ rmin, rmin ∈ rs ∧ (∀ r ∈ rs, r = rmin ∨ revLt rmin r) ∧
      (processRevokes st0 rs).revokes.filter
        (fun e => e.permissionsGrantId == g.cid) = [rmin] := by
  cases rs with
  | nil => exact absurd rfl hne
  | cons r0 rest =>
    obtain ⟨hgid0, hts0, hauthor0⟩ := hall r0 (List.mem_cons_self r0 rest)
    have hgr : st0.grants.find? (fun x => x.cid == r0.permissionsGrantId) = some g := by
      rw [hgid0]
      exact hg
    have hf0 : st0.revokes.filter
        (fun e => e.permissionsGrantId == r0.permissionsGrantId) = [] := by
      rw [hgid0]
      exact hempty
    have hacc := handleRevoke_accept_from st0 g r0 hgr hts0 hauthor0 (Or.inl hf0)
    have hg1 : (handleRevoke st0 r0).2.grants.find? (fun x => x.cid == g.cid) = some g := by
      rw [hacc.2.1]
      exact hg
    have hf1 : (handleRevoke st0 r0).2.revokes.filter
        (fun e => e.permissionsGrantId == g.cid) = [r0] := by
      have := hacc.2.2
      rw [hgid0] at this
      exact this
    have hproc : processRevokes st0 (r0 :: rest) = processRevokes (handleRevoke st0 r0).2 rest := by
      simp [processRevokes]
    rw [List.pairwise_cons] at hpw
    obtain ⟨hpwHead, hpwTail⟩ := hpw
    have hmain := processRevokes_filterG g rest (handleRevoke st0 r0).2 r0 hg1 hf1
      (fun x hx => hall x (List.mem_cons_of_mem _ hx))
      (fun x hx => fun hh => hpwHead x hx hh.symm) hpwTail
    refine ⟨minRev r0 rest, ?_, ?_, by rw [hproc]; exact hmain⟩
    · rcases minRev_mem rest r0 with h | h
      · rw [h]
        exact List.mem_cons_self r0 rest
      · exact List.mem_cons_of_mem _ h
    · intro x hx
      have hpwFull : (r0 :: rest).Pairwise (fun a b => a.cid ≠ b.cid) := by
        rw [List.pairwise_cons]
        exact ⟨hpwHead, hpwTail⟩
      exact minRev_min rest r0 hpwFull x
        (by rcases List.mem_cons.mp hx with h | h; exacts [Or.inl h, Or.inr h])

/-- A second valid revoke, later than `wRevEarly`, used in the C1 witness. -/
def wRevMid : PermissionsRevoke :=
  PermissionsRevoke.mk "bafyrevmid" "2024-01-02T12:00:00.000000Z" "bafygrant" "did:alice"

/-- Grant-only state used by the C1 witness. -/
def wStateC1 : PermState := PermState.mk [wGrant] [] ["bafygrant"]

theorem revoke_convergence_C1_witness :
    ∃ rmin, rmin ∈ [wRevMid, wRevEarly] ∧
      (∀ r ∈ [wRevMid, wRevEarly], r = rmin ∨ revLt rmin r) ∧
      (processRevokes wStateC1 [wRevMid, wRevEarly]).revokes.filter
        (fun e => e.permissionsGrantId == wGrant.cid) = [rmin] :=
  revoke_convergence_C1 wStateC1 wGrant [wRevMid, wRevEarly]
    (by decide) (by decide) (by decide) (by decide) (by decide)

/-- Splitting of a character list at a separator, mirroring JavaScript's
`String.prototype.split` with a one-character separator (an empty string
splits to `[""]`, a trailing separator yields a trailing empty segment). -/
def splitChars (sep : Char) : List Char → List (List Char)
  | [] => [[]]
  | c :: cs =>
    let r := splitChars sep cs
    if c = sep then [] :: r
    else
      match r with
      | [] => [[c]]
      | h :: t => (c :: h) :: t

/-- JavaScript's `s.split(sep)` for a one-character separator. -/
def jsSplit (sep : Char) (s : String) : List String :=
  (splitChars sep s.data).map List.asString

/-- Joining path segments with a slash, as the spec phrases "joined by '/'". -/
def joinSegments : List String → String
  | [] => ""
  | [s] => s
  | s :: rest => s ++ "/" ++ joinSegments rest

/-- The terminal segment of a protocol path:
`ProtocolAuthorization.getRecordDefinitionId`, which evaluates
`protocolPath.split('/').slice(-1)[0]`. -/
def getRecordDefinitionId (protocolPath : String) : String :=
  (jsSplit '/' protocolPath).getLastD ""

/-- A record definition of a protocol definition (`ProtocolRecordDefinition`),
fixing an optional schema and optional allowed data formats. -/
structure ProtocolRecordDefinition where
  id : String
  schema : Option String
  dataFormats : Option (List String)
deriving DecidableEq

/-- The actor of an allow rule (`ProtocolActor`). -/
inductive ProtocolActor where
  | anyone
  | author
  | recipient
deriving DecidableEq

/-- An allow rule of a rule set (`ProtocolRuleSet.allow` entries). -/
structure ProtocolAllowRule where
  actor : ProtocolActor
  actions : List String
  protocolPath : Option String
deriving DecidableEq

/-- A node of the protocol rule-set tree (`ProtocolRuleSet`): an optional
allow list and a map of child rule sets keyed by record-definition id. -/
inductive ProtocolRuleSet where
  | node : Option (List ProtocolAllowRule) → List (String × ProtocolRuleSet) → ProtocolRuleSet

/-- The optional allow list of a rule set. -/
def ProtocolRuleSet.allow : ProtocolRuleSet → Option (List ProtocolAllowRule)
  | .node a _ => a

/-- The child rule sets of a rule set. -/
def ProtocolRuleSet.records : ProtocolRuleSet → List (String × ProtocolRuleSet)
  | .node _ r => r

/-- A protocol definition (`ProtocolDefinition`): its record definitions and
its root map of rule sets. -/
structure ProtocolDefinition where
  recordDefinitions : List ProtocolRecordDefinition
  records : List (String × ProtocolRuleSet)

/-- The descriptor fields of a records or protocols message that
`ProtocolAuthorization` consults. Reads carry the target `recordId` in the
descriptor; `definition` is populated on `ProtocolsConfigure` messages. -/
structure RecordsDescriptor where
  interface : String
  method : String
  protocol : Option String
  protocolPath : Option String
  parentId : Option String
  recordId : Option String
  schema : Option String
  dataFormat : String
  recipient : Option String
  messageTimestamp : String
  definition : Option ProtocolDefinition

/-- A message as held by the Message Store, together with the index values
(`entryId`) and derived attributes (`author` from `Message.getAuthor`, the
message `cid`) the evaluator reads. -/
structure StoredMessage where
  descriptor : RecordsDescriptor
  recordId : String
  contextId : Option String
  entryId : String
  author : Option String
  cid : String

/-- Failures of the authorization evaluator. `typeError` models a raw
JavaScript `TypeError` (property access on `undefined`); every other
constructor models a structured `DwnError` or `Error` thrown by
`protocol-authorization.ts`. `outOfFuel` pads the fuelled embedding of the
ancestor-chain `while` loop, which in the source would not terminate on a
cyclic parent chain. -/
inductive DwnErr where
  | typeError
  | outOfFuel (parentId : String)
  | protocolNotFound (uri : Option String)
  | parentNotFound (parentId : String)
  | missingRuleSet (path : String)
  | invalidRecordDefinition (id : String)
  | incorrectProtocolPath (declared actual : String)
  | invalidSchema (id : String)
  | incorrectDataFormat (id : String)
  | noAllowRule
  | mismatchingRecordSchema (expected actual : String)
  | actionNotAllowed (action : Option String)
  | authorMismatch
deriving DecidableEq

/-- Dereference of a TypeScript non-null assertion or unchecked access: on
`undefined` the JavaScript runtime raises a `TypeError`. -/
def getBang {α : Type} : Option α → Except DwnErr α
  | some a => Except.ok a
  | none => Except.error DwnErr.typeError

/-- The Message Store query `{interface: Protocols, method: Configure,
protocol}` issued by `fetchProtocolDefinition`. -/
def queryProtocolsConfigure (store : List StoredMessage) (protocolUri : Option String) :
    List StoredMessage :=
  store.filter (fun m => m.descriptor.interface == "Protocols"
    && m.descriptor.method == "Configure" && m.descriptor.protocol == protocolUri)

/-- The Message Store query `{interface: Records, method: Write, recordId}`
issued for the target of a read. -/
def queryRecordsWriteByRecordId (store : List StoredMessage) (rid : Option String) :
    List StoredMessage :=
  store.filter (fun m => m.descriptor.interface == "Records"
    && m.descriptor.method == "Write" && some m.recordId == rid)

/-- The Message Store query `{interface: Records, method: Write, protocol,
contextId, recordId: parentId}` issued by the ancestor-chain walk. -/
def queryParent (store : List StoredMessage) (protocol contextId : Option String)
    (parentId : String) : List StoredMessage :=
  store.filter (fun m => m.descriptor.interface == "Records"
    && m.descriptor.method == "Write" && m.descriptor.protocol == protocol
    && m.contextId == contextId && m.recordId == parentId)

/-- The Message Store query `{entryId}` issued by `verifyActionCondition`. -/
def queryByEntryId (store : List StoredMessage) (eid : String) : List StoredMessage :=
  store.filter (fun m => m.entryId == eid)

/-- Modelled from the spec: `RecordsWrite.getNewestMessage` is not part of the
source excerpt; per spec section 4.2 step 1 it selects the newest
`RecordsWrite`, newest meaning greatest in the `(messageTimestamp, cid)`
order. -/
def getNewestMessage (msgs : List StoredMessage) : Option StoredMessage :=
  msgs.foldl (fun acc m =>
    match acc with
    | none => some m
    | some b =>
      if pairLt (b.descriptor.messageTimestamp, b.cid) (m.descriptor.messageTimestamp, m.cid)
      then some m
      else some b) none

/-- The `while (currentParentId !== undefined)` loop of
`constructAncestorMessageChain`, fuelled; each step takes the first result of
`queryParent` and pushes it onto the accumulated (child-first) chain. -/
def chainWalk (store : List StoredMessage) (protocol contextId : Option String) :
    Nat → Option String → List StoredMessage → Except DwnErr (List StoredMessage)
  | _, none, acc => Except.ok acc
  | 0, some parentId, _ => Except.error (DwnErr.outOfFuel parentId)
  | Nat.succ fuel, some parentId, acc =>
    match queryParent store protocol contextId parentId with
    | [] => Except.error (DwnErr.parentNotFound parentId)
    | parent :: _ => chainWalk store protocol contextId fuel parent.descriptor.parentId (acc ++ [parent])

/-- `ProtocolAuthorization.constructAncestorMessageChain`: for a write the
walk starts at the incoming message itself, for a read at the newest stored
write of the target record (which is itself pushed onto the chain); the chain
is returned root-first. -/
def constructAncestorMessageChain (incoming : StoredMessage) (store : List StoredMessage) :
    Except DwnErr (List StoredMessage) :=
  if incoming.descriptor.method == "Write" then
    (chainWalk store incoming.descriptor.protocol incoming.contextId (store.length + 1)
      incoming.descriptor.parentId []).map (fun rest => rest.reverse)
  else
    match getNewestMessage (queryRecordsWriteByRecordId store incoming.descriptor.recordId) with
    | none => Except.error DwnErr.typeError
    | some newest =>
      (chainWalk store newest.descriptor.protocol newest.contextId (store.length + 1)
        newest.descriptor.parentId []).map (fun rest => (newest :: rest).reverse)

/-- `ProtocolAuthorization.fetchProtocolDefinition`: the protocol URI comes
from the incoming message's descriptor for a write and from the last element
of the ancestor chain otherwise; the first `ProtocolsConfigure` returned by
the query supplies the definition, and an empty result fails. -/
def fetchProtocolDefinition (incoming : StoredMessage) (chain store : List StoredMessage) :
    Except DwnErr ProtocolDefinition := do
  let protocolUri ←
    if incoming.descriptor.method == "Write" then
      pure incoming.descriptor.protocol
    else do
      let lastAncestor ← getBang chain.getLast?
      pure lastAncestor.descriptor.protocol
  match queryProtocolsConfigure store protocolUri with
  | [] => Except.error (DwnErr.protocolNotFound protocolUri)
  | protocolMessage :: _ => getBang protocolMessage.descriptor.definition

/-- The rule-set traversal loop of `ProtocolAuthorization.getRuleSet`,
descending through `records` maps along the path segments. -/
def traverseRuleSets : List (String × ProtocolRuleSet) → List String → List String →
    Except DwnErr ProtocolRuleSet
  | _, [], _ => Except.error DwnErr.typeError
  | recs, s :: rest, seen =>
    match recs.lookup s with
    | none => Except.error (DwnErr.missingRuleSet (joinSegments (seen ++ [s])))
    | some rs =>
      match rest with
      | [] => Except.ok rs
      | _ :: _ => traverseRuleSets rs.records rest (seen ++ [s])

/-- `ProtocolAuthorization.getRuleSet`: the protocol path comes from the
incoming write, or from the last element of the ancestor chain for a read. -/
def getRuleSet (incoming : StoredMessage) (protocolDefinition : ProtocolDefinition)
    (chain : List StoredMessage) : Except DwnErr ProtocolRuleSet := do
  let protocolPath ←
    if incoming.descriptor.method == "Write" then
      getBang incoming.descriptor.protocolPath
    else do
      let lastAncestor ← getBang chain.getLast?
      getBang lastAncestor.descriptor.protocolPath
  traverseRuleSets protocolDefinition.records (jsSplit '/' protocolPath) []

/-- `ProtocolAuthorization.verifyProtocolPath`: for a write, the declared
terminal segment must name a record definition, and the declared path must
equal every ancestor's terminal segment followed by a trailing slash,
concatenated, followed by the declared terminal segment. Non-writes skip the
verification. -/
def verifyProtocolPath (incoming : StoredMessage) (chain : List StoredMessage)
    (recordDefinitions : List ProtocolRecordDefinition) : Except DwnErr Unit := do
  if incoming.descriptor.method != "Write" then
    return ()
  let declaredProtocolPath ← getBang incoming.descriptor.protocolPath
  let declaredRecordDefinitionId := getRecordDefinitionId declaredProtocolPath
  if !((recordDefinitions.map (fun rd => rd.id)).contains declaredRecordDefinitionId) then
    throw (DwnErr.invalidRecordDefinition declaredRecordDefinitionId)
  let ancestorProtocolPath ← chain.foldlM (fun acc ancestor => do
    let p ← getBang ancestor.descriptor.protocolPath
    pure (acc ++ getRecordDefinitionId p ++ "/")) ""
  let actualProtocolPath := ancestorProtocolPath ++ declaredRecordDefinitionId
  if declaredProtocolPath != actualProtocolPath then
    throw (DwnErr.incorrectProtocolPath declaredProtocolPath actualProtocolPath)
  return ()

/-- Modelled from the spec: `Protocols.getRecordDefinition` (from
`utils/protocols.ts`, absent from the excerpt) selects the record definition
with the given id from the protocol definition. -/
def getRecordDefinition (protocolDefinition : ProtocolDefinition)
    (recordDefinitionId : String) : Option ProtocolRecordDefinition :=
  protocolDefinition.recordDefinitions.find? (fun rd => rd.id == recordDefinitionId)

/-- `ProtocolAuthorization.verifyRecordDefinition`: for a write, an optional
schema in the record definition must match the descriptor's schema exactly,
and optional data formats must include the descriptor's data format. -/
def verifyRecordDefinition (incoming : StoredMessage)
    (protocolDefinition : ProtocolDefinition) : Except DwnErr Unit := do
  if incoming.descriptor.method != "Write" then
    return ()
  let protocolPath ← getBang incoming.descriptor.protocolPath
  let recordDefinitionId := getRecordDefinitionId protocolPath
  let recordDefinition ← getBang (getRecordDefinition protocolDefinition recordDefinitionId)
  match recordDefinition.schema with
  | some s =>
    if incoming.descriptor.schema != some s then
      throw (DwnErr.invalidSchema recordDefinitionId)
  | none => pure ()
  match recordDefinition.dataFormats with
  | some fmts =>
    if !(fmts.contains incoming.descriptor.dataFormat) then
      throw (DwnErr.incorrectDataFormat recordDefinitionId)
  | none => pure ()

/-- The `while (true)` loop of `ProtocolAuthorization.getMessage`: each
expected segment is compared with the terminal segment of the ancestor at the
same index, a mismatch throws, and reaching the last expected segment returns
that ancestor. -/
def matchAncestors : List String → List StoredMessage → Except DwnErr (Option StoredMessage)
  | [], _ => Except.ok none
  | [expected], ancestorMessage :: _ => do
    let p ← getBang ancestorMessage.descriptor.protocolPath
    let actual := getRecordDefinitionId p
    if actual != expected then
      throw (DwnErr.mismatchingRecordSchema expected actual)
    else
      pure (some ancestorMessage)
  | expected :: e2 :: rest, ancestorMessage :: ms => do
    let p ← getBang ancestorMessage.descriptor.protocolPath
    let actual := getRecordDefinitionId p
    if actual != expected then
      throw (DwnErr.mismatchingRecordSchema expected actual)
    else
      matchAncestors (e2 :: rest) ms
  | _ :: _, [] => Except.error DwnErr.typeError

/-- `ProtocolAuthorization.getMessage`: a path with more segments than the
chain yields `undefined`; otherwise the segments are matched against the
chain, throwing on any mismatching record definition id. -/
def getMessage (ancestorMessageChain : List StoredMessage) (protocolPath : String) :
    Except DwnErr (Option StoredMessage) :=
  let expectedAncestors := jsSplit '/' protocolPath
  if expectedAncestors.length > ancestorMessageChain.length then
    Except.ok none
  else
    matchAncestors expectedAncestors ancestorMessageChain

/-- The `methodToAllowedActionMap` of `protocol-authorization.ts`, mapping
`Write` to the `write` action and `Read` to `read`. -/
def methodToAllowedActionMap (incomingMessageMethod : String) : Option String :=
  if incomingMessageMethod == "Write" then some "write"
  else if incomingMessageMethod == "Read" then some "read"
  else none

/-- One iteration of the allow-rule loop in
`ProtocolAuthorization.verifyAllowedActions`: an Anyone rule grants its
actions; an Author or Recipient rule locates the ancestor at the rule's
protocol path via `getMessage` (propagating its exceptions) and grants its
actions when the requester matches that ancestor's author, respectively
recipient. -/
def evalAllowRule (ancestorMessageChain : List StoredMessage) (requesterDid : Option String)
    (allowedActions : List String) (allowRule : ProtocolAllowRule) :
    Except DwnErr (List String) :=
  match allowRule.actor with
  | ProtocolActor.anyone => Except.ok (allowedActions ++ allowRule.actions)
  | ProtocolActor.author => do
    let path ← getBang allowRule.protocolPath
    let messageForAuthorCheck ← getMessage ancestorMessageChain path
    match messageForAuthorCheck with
    | some msg =>
      if requesterDid == msg.author then
        pure (allowedActions ++ allowRule.actions)
      else
        pure allowedActions
    | none => pure allowedActions
  | ProtocolActor.recipient => do
    let path ← getBang allowRule.protocolPath
    let messageForRecipientCheck ← getMessage ancestorMessageChain path
    match messageForRecipientCheck with
    | some msg =>
      if requesterDid == msg.descriptor.recipient then
        pure (allowedActions ++ allowRule.actions)
      else
        pure allowedActions
    | none => pure allowedActions

/-- `ProtocolAuthorization.verifyAllowedActions`: with no allow list only the
tenant may proceed; otherwise the union of actions granted by the rules must
contain the action of the incoming method. -/
def verifyAllowedActions (tenant : String) (requesterDid : Option String)
    (incomingMessageMethod : String) (inboundMessageRuleSet : ProtocolRuleSet)
    (ancestorMessageChain : List StoredMessage) : Except DwnErr Unit := do
  match inboundMessageRuleSet.allow with
  | none =>
    if requesterDid == some tenant then
      return ()
    else
      throw DwnErr.noAllowRule
  | some allowRules => do
    let allowedActions ← allowRules.foldlM (evalAllowRule ancestorMessageChain requesterDid) []
    match methodToAllowedActionMap incomingMessageMethod with
    | some inboundMessageAction =>
      if !(allowedActions.contains inboundMessageAction) then
        throw (DwnErr.actionNotAllowed (some inboundMessageAction))
    | none => throw (DwnErr.actionNotAllowed none)

/-- Modelled from the spec: `RecordsWrite.isInitialWrite` is not part of the
source excerpt; per spec section 3, a write is initial iff its derived
`entryId` equals its `recordId`. -/
def isInitialWrite (m : StoredMessage) : Bool := m.entryId == m.recordId

/-- `ProtocolAuthorization.verifyActionCondition`: reads have no condition;
a non-initial write fetches the stored initial write by `entryId` equal to
the incoming `recordId`, takes the first result without an emptiness check,
and requires its author to equal the incoming author. -/
def verifyActionCondition (incoming : StoredMessage) (store : List StoredMessage) :
    Except DwnErr Unit := do
  if incoming.descriptor.method == "Read" then
    return ()
  else if incoming.descriptor.method == "Write" then
    if !(isInitialWrite incoming) then
      let result := queryByEntryId store incoming.recordId
      let initialWrite ← getBang result.head?
      if incoming.author != initialWrite.author then
        throw DwnErr.authorMismatch
      else
        return ()
    else
      return ()
  else
    return ()

/-- `ProtocolAuthorization.authorize`: the full evaluator pipeline. -/
def authorize (tenant : String) (incoming : StoredMessage) (requesterDid : Option String)
    (store : List StoredMessage) : Except DwnErr Unit := do
  let ancestorMessageChain ← constructAncestorMessageChain incoming store
  let protocolDefinition ← fetchProtocolDefinition incoming ancestorMessageChain store
  verifyProtocolPath incoming ancestorMessageChain protocolDefinition.recordDefinitions
  let inboundMessageRuleSet ← getRuleSet incoming protocolDefinition ancestorMessageChain
  verifyRecordDefinition incoming protocolDefinition
  verifyAllowedActions tenant requesterDid incoming.descriptor.method inboundMessageRuleSet
    ancestorMessageChain
  verifyActionCondition incoming store

/-- Claim C7: for every incoming message whose matched protocol rule set has
no allow list, action verification succeeds iff the requester DID equals the
tenant DID, and any other requester fails with the unauthorized
no-allow-rule error. -/
theorem owner_only_default_C7
    (tenant : String) (requesterDid : Option String) (incomingMessageMethod : String)
    (ruleSet : ProtocolRuleSet) (chain : List StoredMessage)
    (hallow : ruleSet.allow = none) :
    (verifyAllowedActions tenant requesterDid incomingMessageMethod ruleSet chain
        = Except.ok () ↔ requesterDid = some tenant) ∧
    (requesterDid ≠ some tenant →
      verifyAllowedActions tenant requesterDid incomingMessageMethod ruleSet chain
        = Except.error DwnErr.noAllowRule) := by
  have hcase : verifyAllowedActions tenant requesterDid incomingMessageMethod ruleSet chain
      = if requesterDid == some tenant then Except.ok () else Except.error DwnErr.noAllowRule := by
    unfold verifyAllowedActions
    rw [hallow]
    by_cases h : requesterDid = some tenant
    · rw [if_pos (by simpa using h), if_pos (by simpa using h)]
      rfl
    · rw [if_neg (by simpa using h), if_neg (by simpa using h)]
      simp [throw, throwThe, MonadExceptOf.throw]
  constructor
  · constructor
    · intro hok
      by_contra h
      rw [hcase, if_neg (by simpa using h)] at hok
      exact Except.noConfusion hok
    · intro h
      rw [hcase, if_pos (by simpa using h)]
  · intro h
    rw [hcase, if_neg (by simpa using h)]

/-- Rule set with no allow list, for the C7 witness. -/
def wRuleSetNoAllow : ProtocolRuleSet := ProtocolRuleSet.node none []

theorem owner_only_default_C7_witness :
    verifyAllowedActions "did:alice" (some "did:alice") "Write" wRuleSetNoAllow []
      = Except.ok () ∧
    verifyAllowedActions "did:alice" (some "did:bob") "Write" wRuleSetNoAllow []
      = Except.error DwnErr.noAllowRule := by
  constructor
  · exact (owner_only_default_C7 "did:alice" (some "did:alice") "Write"
      wRuleSetNoAllow [] rfl).1.mpr rfl
  · exact (owner_only_default_C7 "did:alice" (some "did:bob") "Write"
      wRuleSetNoAllow [] rfl).2 (by decide)

/-- Claim C8: protocol authorization checks that a non-initial RecordsWrite
has the same author as the stored initial write, fetched by entryId equal to
the incoming recordId: the condition verifies iff the authors agree, failing
with the author-mismatch error otherwise, while reads and initial writes skip
the check. -/
theorem noninitial_author_check_C8 :
    (∀ (incoming : StoredMessage) (store : List StoredMessage),
      incoming.descriptor.method = "Read" →
      verifyActionCondition incoming store = Except.ok ()) ∧
    (∀ (incoming : StoredMessage) (store : List StoredMessage),
      incoming.descriptor.method = "Write" →
      isInitialWrite incoming = true →
      verifyActionCondition incoming store = Except.ok ()) ∧
    (∀ (incoming initialWrite : StoredMessage) (store : List StoredMessage),
      incoming.descriptor.method = "Write" →
      isInitialWrite incoming = false →
      (queryByEntryId store incoming.recordId).head? = some initialWrite →
      ((verifyActionCondition incoming store = Except.ok () ↔
          incoming.author = initialWrite.author) ∧
        (incoming.author ≠ initialWrite.author →
          verifyActionCondition incoming store = Except.error DwnErr.authorMismatch))) := by
  refine ⟨?_, ?_, ?_⟩
  · intro incoming store h
    unfold verifyActionCondition
    rw [h]
    rfl
  · intro incoming store hm hinit
    unfold verifyActionCondition
    rw [hm, hinit]
    rfl
  · intro incoming initialWrite store hm hinit hhead
    have e1 : (("Write" : String) == "Read") = false := by decide
    have e2 : (("Write" : String) == "Write") = true := by decide
    have hcase : verifyActionCondition incoming store =
        if incoming.author != initialWrite.author
        then Except.error DwnErr.authorMismatch
        else Except.ok () := by
      unfold verifyActionCondition
      rw [hm, hinit]
      simp only [e1, e2, Bool.false_eq_true, if_false, Bool.not_false, if_true, hhead,
        getBang, bind, Except.bind, pure, Except.pure, throw, throwThe, MonadExceptOf.throw]
    refine ⟨⟨?_, ?_⟩, ?_⟩
    · intro hok
      by_contra hab
      rw [hcase, if_pos (by simpa using hab)] at hok
      exact Except.noConfusion hok
    · intro hab
      rw [hcase, if_neg (by simp [hab])]
    · intro hab
      rw [hcase, if_pos (by simpa using hab)]

/-- Descriptor of a RecordsRead targeting record `rid1`. -/
def wDescRead : RecordsDescriptor :=
  RecordsDescriptor.mk "Records" "Read" (some "proto") none none (some "rid1") none
    "application/json" none "2024-01-05T00:00:00.000000Z" none

/-- A RecordsRead message (descriptor-level recordId, no write fields). -/
def wMsgRead : StoredMessage :=
  StoredMessage.mk wDescRead "" none "unused" (some "did:alice") "bafyread"

/-- Descriptor of an initial protocol RecordsWrite at path `foo`. -/
def wDescInit : RecordsDescriptor :=
  RecordsDescriptor.mk "Records" "Write" (some "proto") (some "foo") none none none
    "application/json" none "2024-01-01T00:00:00.000000Z" none

/-- The stored initial write of record `rid1` (entryId equals recordId). -/
def wMsgInit : StoredMessage :=
  StoredMessage.mk wDescInit "rid1" (some "rid1") "rid1" (some "did:alice") "bafyinit"

/-- Descriptor of a subsequent RecordsWrite of `rid1`. -/
def wDescUpd : RecordsDescriptor :=
  RecordsDescriptor.mk "Records" "Write" (some "proto") (some "foo") none none none
    "application/json" none "2024-01-02T00:00:00.000000Z" none

/-- A non-initial write of `rid1` by the original author. -/
def wMsgUpd : StoredMessage :=
  StoredMessage.mk wDescUpd "rid1" (some "rid1") "entryupd" (some "did:alice") "bafyupd"

/-- A non-initial write of `rid1` by a different author. -/
def wMsgUpdBad : StoredMessage :=
  StoredMessage.mk wDescUpd "rid1" (some "rid1") "entrybad" (some "did:eve") "bafybad"

/-- Store holding the initial write of `rid1`. -/
def wStoreC8 : List StoredMessage := [wMsgInit]

theorem noninitial_author_check_C8_witness :
    verifyActionCondition wMsgRead wStoreC8 = Except.ok () ∧
    verifyActionCondition wMsgInit wStoreC8 = Except.ok () ∧
    verifyActionCondition wMsgUpd wStoreC8 = Except.ok () ∧
    verifyActionCondition wMsgUpdBad wStoreC8 = Except.error DwnErr.authorMismatch := by
  refine ⟨?_, ?_, ?_, ?_⟩
  · exact noninitial_author_check_C8.1 wMsgRead wStoreC8 rfl
  · exact noninitial_author_check_C8.2.1 wMsgInit wStoreC8 rfl rfl
  · exact (noninitial_author_check_C8.2.2 wMsgUpd wMsgInit wStoreC8 rfl rfl rfl).1.mpr rfl
  · exact (noninitial_author_check_C8.2.2 wMsgUpdBad wMsgInit wStoreC8 rfl rfl rfl).2 (by decide)

/-- Claim C10: for a non-initial RecordsWrite with no parentId whose initial
write is absent from the store, the ancestor-chain walk succeeds with an
empty chain, while verifyActionCondition dereferences the missing first query
result and fails with the raw TypeError rather than a structured error. -/
theorem missing_initial_write_C10
    (incoming : StoredMessage) (store : List StoredMessage)
    (hmethod : incoming.descriptor.method = "Write")
    (hparent : incoming.descriptor.parentId = none)
    (hnotinit : isInitialWrite incoming = false)
    (hquery : queryByEntryId store incoming.recordId = []) :
    constructAncestorMessageChain incoming store = Except.ok [] ∧
    verifyActionCondition incoming store = Except.error DwnErr.typeError := by
  constructor
  · unfold constructAncestorMessageChain
    rw [if_pos (by simp [hmethod]), hparent]
    rfl
  · have e1 : (("Write" : String) == "Read") = false := by decide
    have e2 : (("Write" : String) == "Write") = true := by decide
    unfold verifyActionCondition
    rw [hmethod, hnotinit]
    simp only [e1, e2, Bool.false_eq_true, if_false, Bool.not_false, if_true, hquery,
      getBang, bind, Except.bind, pure, Except.pure]
    rfl

/-- A non-initial write (entryId differs from recordId) with no parent. -/
def wMsgOrphan : StoredMessage :=
  StoredMessage.mk
    (RecordsDescriptor.mk "Records" "Write" (some "proto") (some "foo") none none none
      "application/json" none "2024-01-03T00:00:00.000000Z" none)
    "ridz" (some "ridz") "entryz" (some "did:alice") "bafyorphan"

theorem missing_initial_write_C10_witness :
    constructAncestorMessageChain wMsgOrphan [] = Except.ok [] ∧
    verifyActionCondition wMsgOrphan [] = Except.error DwnErr.typeError :=
  missing_initial_write_C10 wMsgOrphan [] rfl rfl rfl rfl

theorem joinSegments_cons (s : String) (t : List String) (h : t ≠ []) :
    joinSegments (s :: t) = s ++ "/" ++ joinSegments t := by
  cases t with
  | nil => exact absurd rfl h
  | cons a b => rfl

theorem foldl_slash_append (ids : List String) :
    ∀ acc d : String,
      (ids.foldl (fun acc i => acc ++ i ++ "/") acc) ++ d = acc ++ joinSegments (ids ++ [d]) := by
  induction ids with
  | nil =>
    intro acc d
    simp [joinSegments]
  | cons i t ih =>
    intro acc d
    rw [List.foldl_cons, ih (acc ++ i ++ "/") d, List.cons_append,
      joinSegments_cons i (t ++ [d]) (by simp)]
    simp [String.append_assoc]

theorem foldlM_ancestor_path (chain : List StoredMessage)
    (h : ∀ a ∈ chain, (a.descriptor.protocolPath).isSome = true) :
    ∀ acc : String,
      (List.foldlM (fun acc ancestor => do
          let p ← getBang ancestor.descriptor.protocolPath
          pure (acc ++ getRecordDefinitionId p ++ "/")) acc chain : Except DwnErr String)
        = Except.ok (List.foldl (fun acc ancestor =>
            acc ++ getRecordDefinitionId ((ancestor.descriptor.protocolPath).getD "") ++ "/")
            acc chain) := by
  induction chain with
  | nil => intro acc; rfl
  | cons a t ih =>
    intro acc
    obtain ⟨p, hp⟩ := Option.isSome_iff_exists.mp (h a (List.mem_cons_self a t))
    rw [List.foldlM_cons, List.foldl_cons, hp]
    simp only [getBang, Option.getD_some, bind, Except.bind, pure, Except.pure]
    exact ih (fun x hx => h x (List.mem_cons_of_mem _ hx)) _

/-- The ancestor-path accumulator of `verifyProtocolPath` (each ancestor's
terminal segment followed by a trailing slash, concatenated). -/
def ancestorPathConcat (chain : List StoredMessage) : String :=
  chain.foldl (fun acc a =>
    acc ++ getRecordDefinitionId ((a.descriptor.protocolPath).getD "") ++ "/") ""

theorem foldl_chain_join (chain : List StoredMessage) :
    ∀ acc d : String,
      (chain.foldl (fun acc a =>
          acc ++ getRecordDefinitionId ((a.descriptor.protocolPath).getD "") ++ "/") acc) ++ d
        = acc ++ joinSegments ((chain.map (fun a =>
            getRecordDefinitionId ((a.descriptor.protocolPath).getD ""))) ++ [d]) := by
  induction chain with
  | nil =>
    intro acc d
    simp [joinSegments]
  | cons a t ih =>
    intro acc d
    rw [List.foldl_cons, ih, List.map_cons, List.cons_append,
      joinSegments_cons _ _ (by simp)]
    simp [String.append_assoc]

theorem ancestorPathConcat_append (chain : List StoredMessage) (d : String) :
    ancestorPathConcat chain ++ d
      = joinSegments ((chain.map (fun a =>
          getRecordDefinitionId ((a.descriptor.protocolPath).getD ""))) ++ [d]) := by
  rw [ancestorPathConcat, foldl_chain_join, String.empty_append]

theorem bool_eq_false {b : Bool} (h : ¬ b = true) : b = false := by
  cases b
  · rfl
  · exact absurd rfl h

/-- Claim C6: for an incoming RecordsWrite with a protocol, authorization
passes path verification iff the declared protocolPath equals each ancestor's
terminal path segment joined by a slash followed by the declared terminal
segment, and that terminal segment is the id of some record definition;
otherwise it fails with the invalid-record-definition or
incorrect-protocol-path error. Reads skip this verification. -/
theorem protocol_path_verification_C6 :
    (∀ (incoming : StoredMessage) (chain : List StoredMessage)
        (recordDefinitions : List ProtocolRecordDefinition) (declared : String),
      incoming.descriptor.method = "Write" →
      incoming.descriptor.protocolPath = some declared →
      (∀ a ∈ chain, (a.descriptor.protocolPath).isSome = true) →
      ((verifyProtocolPath incoming chain recordDefinitions = Except.ok () ↔
          (getRecordDefinitionId declared ∈ recordDefinitions.map (fun rd => rd.id) ∧
            declared = joinSegments ((chain.map (fun a =>
                getRecordDefinitionId ((a.descriptor.protocolPath).getD "")))
              ++ [getRecordDefinitionId declared]))) ∧
        (verifyProtocolPath incoming chain recordDefinitions = Except.ok () ∨
          verifyProtocolPath incoming chain recordDefinitions
            = Except.error (DwnErr.invalidRecordDefinition (getRecordDefinitionId declared)) ∨
          ∃ actual, verifyProtocolPath incoming chain recordDefinitions
            = Except.error (DwnErr.incorrectProtocolPath declared actual)))) ∧
    (∀ (incoming : StoredMessage) (chain : List StoredMessage)
        (recordDefinitions : List ProtocolRecordDefinition),
      incoming.descriptor.method = "Read" →
      verifyProtocolPath incoming chain recordDefinitions = Except.ok ()) := by
  constructor
  · intro incoming chain recordDefinitions declared hmethod hpath hpaths
    have e3 : (("Write" : String) != "Write") = false := by decide
    have hfold := foldlM_ancestor_path chain hpaths ""
    have hred : verifyProtocolPath incoming chain recordDefinitions =
        (if !((recordDefinitions.map (fun rd => rd.id)).contains
            (getRecordDefinitionId declared))
          then Except.error (DwnErr.invalidRecordDefinition (getRecordDefinitionId declared))
          else if declared != (ancestorPathConcat chain ++ getRecordDefinitionId declared)
          then Except.error (DwnErr.incorrectProtocolPath declared
            (ancestorPathConcat chain ++ getRecordDefinitionId declared))
          else Except.ok ()) := by
      unfold verifyProtocolPath
      rw [hmethod, hpath, hfold]
      simp only [e3, Bool.false_eq_true, if_false, getBang, bind, Except.bind, pure,
        Except.pure, throw, throwThe, MonadExceptOf.throw, ancestorPathConcat]
    have hactual := ancestorPathConcat_append chain (getRecordDefinitionId declared)
    have hbridge : ((recordDefinitions.map (fun rd => rd.id)).contains
        (getRecordDefinitionId declared)) = true ↔
        getRecordDefinitionId declared ∈ recordDefinitions.map (fun rd => rd.id) := by
      constructor
      · intro h
        exact List.mem_of_elem_eq_true h
      · intro h
        exact List.elem_eq_true_of_mem h
    refine ⟨⟨?_, ?_⟩, ?_⟩
    · intro hok
      by_cases hc : ((recordDefinitions.map (fun rd => rd.id)).contains
          (getRecordDefinitionId declared)) = true
      · refine ⟨hbridge.mp hc, ?_⟩
        rw [hred, if_neg (by rw [hc]; decide)] at hok
        by_contra hneq
        have hne2 : declared ≠ ancestorPathConcat chain ++ getRecordDefinitionId declared := by
          intro hh
          rw [hactual] at hh
          exact hneq hh
        rw [if_pos (by simpa using hne2)] at hok
        exact Except.noConfusion hok
      · have hcf := bool_eq_false hc
        rw [hred, if_pos (by rw [hcf]; decide)] at hok
        exact Except.noConfusion hok
    · rintro ⟨hmem, heq⟩
      have hc := hbridge.mpr hmem
      have heq2 : declared = ancestorPathConcat chain ++ getRecordDefinitionId declared := by
        rw [hactual]
        exact heq
      rw [hred, if_neg (by rw [hc]; decide),
        if_neg (by simp only [bne_iff_ne, ne_eq, not_not]; exact heq2)]
    · by_cases hc : ((recordDefinitions.map (fun rd => rd.id)).contains
          (getRecordDefinitionId declared)) = true
      · by_cases hne : declared = ancestorPathConcat chain ++ getRecordDefinitionId declared
        · exact Or.inl (by rw [hred, if_neg (by rw [hc]; decide),
            if_neg (by simp only [bne_iff_ne, ne_eq, not_not]; exact hne)])
        · exact Or.inr (Or.inr ⟨ancestorPathConcat chain ++ getRecordDefinitionId declared,
            by rw [hred, if_neg (by rw [hc]; decide), if_pos (by simpa using hne)]⟩)
      · have hcf := bool_eq_false hc
        exact Or.inr (Or.inl (by rw [hred, if_pos (by rw [hcf]; decide)]))
  · intro incoming chain recordDefinitions hmethod
    unfold verifyProtocolPath
    rw [hmethod]
    rfl

/-- Record definitions for the C6 scenario: `foo` with child `bar`. -/
def wDefsC6 : List ProtocolRecordDefinition :=
  [ProtocolRecordDefinition.mk "foo" none none, ProtocolRecordDefinition.mk "bar" none none]

/-- A child write at protocol path `foo/bar`. -/
def wMsgChildBar : StoredMessage :=
  StoredMessage.mk
    (RecordsDescriptor.mk "Records" "Write" (some "proto") (some "foo/bar") (some "rid1")
      none none "application/json" none "2024-01-04T00:00:00.000000Z" none)
    "rid2" (some "rid1") "rid2" (some "did:alice") "bafychild"

theorem protocol_path_verification_C6_witness :
    verifyProtocolPath wMsgChildBar [wMsgInit] wDefsC6 = Except.ok () := by
  have h := (protocol_path_verification_C6.1 wMsgChildBar [wMsgInit] wDefsC6 "foo/bar"
    rfl rfl (by decide)).1
  exact h.mpr (by decide)

theorem matchAncestors_error :
    ∀ (segs : List String) (chain : List StoredMessage),
      segs.length ≤ chain.length →
      (∃ i, ∃ hi : i < segs.length, ∃ hc : i < chain.length,
        segs.get ⟨i, hi⟩ ≠ getRecordDefinitionId
          (((chain.get ⟨i, hc⟩).descriptor.protocolPath).getD "")) →
      ∃ e, matchAncestors segs chain = Except.error e := by
  intro segs
  induction segs with
  | nil =>
    intro chain _ hmm
    obtain ⟨i, hi, _, _⟩ := hmm
    exact absurd hi (Nat.not_lt_zero i)
  | cons s rest ih =>
    intro chain hlen hmm
    cases chain with
    | nil => simp at hlen
    | cons m ms =>
      cases hp : m.descriptor.protocolPath with
      | none =>
        cases rest with
        | nil =>
          refine ⟨DwnErr.typeError, ?_⟩
          unfold matchAncestors
          rw [hp]
          rfl
        | cons r2 rs =>
          refine ⟨DwnErr.typeError, ?_⟩
          unfold matchAncestors
          rw [hp]
          rfl
      | some p =>
        by_cases hmatch : getRecordDefinitionId p = s
        · obtain ⟨i, hi, hc, hne⟩ := hmm
          cases rest with
          | nil =>
            have hi0 : i = 0 := Nat.lt_one_iff.mp hi
            subst hi0
            have hne2 : s ≠ getRecordDefinitionId ((m.descriptor.protocolPath).getD "") := by
              simpa using hne
            rw [hp] at hne2
            exact absurd hmatch (fun hh => hne2 (by simpa using hh.symm))
          | cons r2 rs =>
            cases i with
            | zero =>
              have hne2 : s ≠ getRecordDefinitionId ((m.descriptor.protocolPath).getD "") := by
                simpa using hne
              rw [hp] at hne2
              exact absurd hmatch (fun hh => hne2 (by simpa using hh.symm))
            | succ j =>
              have hlen2 : (r2 :: rs).length ≤ ms.length := by
                simpa using Nat.succ_le_succ_iff.mp (by simpa using hlen)
              have hmm2 : ∃ i2, ∃ hi2 : i2 < (r2 :: rs).length, ∃ hc2 : i2 < ms.length,
                  (r2 :: rs).get ⟨i2, hi2⟩ ≠ getRecordDefinitionId
                    (((ms.get ⟨i2, hc2⟩).descriptor.protocolPath).getD "") := by
                refine ⟨j, by simpa using hi, by simpa using hc, ?_⟩
                simpa using hne
              obtain ⟨e, he⟩ := ih ms hlen2 hmm2
              refine ⟨e, ?_⟩
              unfold matchAncestors
              rw [hp]
              simp only [getBang, bind, Except.bind]
              rw [if_neg (by simp [hmatch])]
              exact he
        · cases rest with
          | nil =>
            refine ⟨DwnErr.mismatchingRecordSchema s (getRecordDefinitionId p), ?_⟩
            unfold matchAncestors
            rw [hp]
            simp only [getBang, bind, Except.bind]
            rw [if_pos (by simpa using hmatch)]
            rfl
          | cons r2 rs =>
            refine ⟨DwnErr.mismatchingRecordSchema s (getRecordDefinitionId p), ?_⟩
            unfold matchAncestors
            rw [hp]
            simp only [getBang, bind, Except.bind]
            rw [if_pos (by simpa using hmatch)]
            rfl

theorem getMessage_error (chain : List StoredMessage) (p : String)
    (hlen : (jsSplit '/' p).length ≤ chain.length)
    (hmm : ∃ i, ∃ hi : i < (jsSplit '/' p).length, ∃ hc : i < chain.length,
      (jsSplit '/' p).get ⟨i, hi⟩ ≠ getRecordDefinitionId
        (((chain.get ⟨i, hc⟩).descriptor.protocolPath).getD "")) :
    ∃ e, getMessage chain p = Except.error e := by
  obtain ⟨e, he⟩ := matchAncestors_error (jsSplit '/' p) chain hlen hmm
  refine ⟨e, ?_⟩
  unfold getMessage
  rw [if_neg (by omega)]
  exact he

theorem evalAllowRule_error (chain : List StoredMessage) (requesterDid : Option String)
    (r : ProtocolAllowRule) (p : String) (e : DwnErr)
    (hactor : r.actor = ProtocolActor.author ∨ r.actor = ProtocolActor.recipient)
    (hp : r.protocolPath = some p)
    (hget : getMessage chain p = Except.error e) :
    ∀ acc, evalAllowRule chain requesterDid acc r = Except.error e := by
  intro acc
  rcases hactor with h | h
  · unfold evalAllowRule
    rw [h]
    simp only [hp, getBang, bind, Except.bind, pure, Except.pure]
    rw [hget]
  · unfold evalAllowRule
    rw [h]
    simp only [hp, getBang, bind, Except.bind, pure, Except.pure]
    rw [hget]

theorem foldlM_evalAllowRule_error (chain : List StoredMessage)
    (requesterDid : Option String) (r : ProtocolAllowRule) (e : DwnErr)
    (herr : ∀ acc, evalAllowRule chain requesterDid acc r = Except.error e) :
    ∀ (rules : List ProtocolAllowRule), r ∈ rules →
      ∀ acc, ∃ e2, List.foldlM (evalAllowRule chain requesterDid) acc rules
        = Except.error e2 := by
  intro rules
  induction rules with
  | nil =>
    intro h
    exact absurd h (List.not_mem_nil r)
  | cons a tl ih =>
    intro hmem acc
    rw [List.foldlM_cons]
    rcases List.mem_cons.mp hmem with hra | hrtl
    · refine ⟨e, ?_⟩
      rw [← hra, herr acc]
      rfl
    · cases hev : evalAllowRule chain requesterDid acc a with
      | error e2 => exact ⟨e2, rfl⟩
      | ok acc2 =>
        obtain ⟨e2, he2⟩ := ih hrtl acc2
        exact ⟨e2, he2⟩

/-- Claim C9: an Author or Recipient allow rule whose protocolPath has at most
as many segments as the ancestor chain but disagrees with the chain's
record-definition id at some index makes the whole action evaluation throw,
rather than merely not granting that rule's actions, regardless of what other
rules (for example an Anyone rule) have already granted. -/
theorem overreaching_allow_rule_C9
    (tenant : String) (requesterDid : Option String) (incomingMessageMethod : String)
    (ruleSet : ProtocolRuleSet) (chain : List StoredMessage)
    (rules : List ProtocolAllowRule) (r : ProtocolAllowRule) (p : String)
    (hallow : ruleSet.allow = some rules)
    (hr : r ∈ rules)
    (hactor : r.actor = ProtocolActor.author ∨ r.actor = ProtocolActor.recipient)
    (hp : r.protocolPath = some p)
    (hlen : (jsSplit '/' p).length ≤ chain.length)
    (hmm : ∃ i, ∃ hi : i < (jsSplit '/' p).length, ∃ hc : i < chain.length,
      (jsSplit '/' p).get ⟨i, hi⟩ ≠ getRecordDefinitionId
        (((chain.get ⟨i, hc⟩).descriptor.protocolPath).getD "")) :
    ∃ e, verifyAllowedActions tenant requesterDid incomingMessageMethod ruleSet chain
      = Except.error e := by
  obtain ⟨e0, hget⟩ := getMessage_error chain p hlen hmm
  have herr := evalAllowRule_error chain requesterDid r p e0 hactor hp hget
  obtain ⟨e2, hfold⟩ := foldlM_evalAllowRule_error chain requesterDid r e0 herr rules hr []
  refine ⟨e2, ?_⟩
  unfold verifyAllowedActions
  simp only [hallow]
  rw [hfold]
  rfl

/-- An Anyone rule granting the write action. -/
def wRuleAnyone : ProtocolAllowRule :=
  ProtocolAllowRule.mk ProtocolActor.anyone ["write"] none

/-- An Author rule whose protocol path does not match the ancestor chain. -/
def wRuleBadAuthor : ProtocolAllowRule :=
  ProtocolAllowRule.mk ProtocolActor.author ["write"] (some "xyz")

/-- A rule set carrying both rules of the C9 scenario. -/
def wRuleSetC9 : ProtocolRuleSet :=
  ProtocolRuleSet.node (some [wRuleAnyone, wRuleBadAuthor]) []

theorem overreaching_allow_rule_C9_witness :
    ∃ e, verifyAllowedActions "did:alice" (some "did:bob") "Write" wRuleSetC9 [wMsgInit]
      = Except.error e :=
  overreaching_allow_rule_C9 "did:alice" (some "did:bob") "Write" wRuleSetC9 [wMsgInit]
    [wRuleAnyone, wRuleBadAuthor] wRuleBadAuthor "xyz" rfl (by decide) (Or.inl rfl) rfl
    (by decide) ⟨0, by decide, by decide, by decide⟩

theorem queryParent_protocol (store : List StoredMessage)
    (protocol contextId : Option String) (parentId : String) (m : StoredMessage)
    (h : m ∈ queryParent store protocol contextId parentId) :
    m.descriptor.protocol = protocol := by
  unfold queryParent at h
  rw [List.mem_filter] at h
  have h2 := h.2
  simp only [Bool.and_eq_true] at h2
  exact by simpa using h2.1.1.2

theorem chainWalk_protocol (store : List StoredMessage)
    (protocol contextId : Option String) :
    ∀ (fuel : Nat) (pid : Option String) (acc l : List StoredMessage),
      chainWalk store protocol contextId fuel pid acc = Except.ok l →
      ∀ m ∈ l, m ∈ acc ∨ m.descriptor.protocol = protocol := by
  intro fuel
  induction fuel with
  | zero =>
    intro pid acc l h m hm
    cases pid with
    | none =>
      have : acc = l := by simpa [chainWalk] using h
      exact Or.inl (this ▸ hm)
    | some p => simp [chainWalk] at h
  | succ fuel ih =>
    intro pid acc l h m hm
    cases pid with
    | none =>
      have : acc = l := by simpa [chainWalk] using h
      exact Or.inl (this ▸ hm)
    | some p =>
      unfold chainWalk at h
      cases hq : queryParent store protocol contextId p with
      | nil =>
        rw [hq] at h
        exact absurd h (by simp)
      | cons parent rest =>
        rw [hq] at h
        rcases ih parent.descriptor.parentId (acc ++ [parent]) l h m hm with hin | hprot
        · rcases List.mem_append.mp hin with h1 | h1
          · exact Or.inl h1
          · have hpar : m = parent := by simpa using h1
            right
            rw [hpar]
            exact queryParent_protocol store protocol contextId p parent
              (hq ▸ List.mem_cons_self parent rest)
        · exact Or.inr hprot

theorem exists_getLast_mem {α : Type} :
    ∀ (l : List α), l ≠ [] → ∃ a, l.getLast? = some a ∧ a ∈ l := by
  intro l
  induction l with
  | nil => intro h; exact absurd rfl h
  | cons a t ih =>
    intro _
    cases t with
    | nil => exact ⟨a, rfl, List.mem_cons_self a []⟩
    | cons b u =>
      obtain ⟨x, hx, hm⟩ := ih (by simp)
      exact ⟨x, by rw [List.getLast?_cons_cons]; exact hx, List.mem_cons_of_mem _ hm⟩

theorem construct_protocol_const (incoming : StoredMessage) (store chain : List StoredMessage)
    (h : constructAncestorMessageChain incoming store = Except.ok chain) :
    ∃ p, ∀ m ∈ chain, m.descriptor.protocol = p := by
  unfold constructAncestorMessageChain at h
  by_cases hm : (incoming.descriptor.method == "Write") = true
  · rw [if_pos hm] at h
    cases hw : chainWalk store incoming.descriptor.protocol incoming.contextId
        (store.length + 1) incoming.descriptor.parentId [] with
    | error e =>
      rw [hw] at h
      exact absurd h (by simp [Except.map])
    | ok rest =>
      rw [hw] at h
      have hchain : chain = rest.reverse := by
        have := h.symm
        simpa [Except.map] using this
      refine ⟨incoming.descriptor.protocol, ?_⟩
      intro m hm2
      rw [hchain, List.mem_reverse] at hm2
      rcases chainWalk_protocol store incoming.descriptor.protocol incoming.contextId
          (store.length + 1) incoming.descriptor.parentId [] rest hw m hm2 with hin | hp
      · exact absurd hin (List.not_mem_nil m)
      · exact hp
  · rw [if_neg hm] at h
    cases hn : getNewestMessage (queryRecordsWriteByRecordId store
        incoming.descriptor.recordId) with
    | none =>
      rw [hn] at h
      exact absurd h (by simp)
    | some newest =>
      rw [hn] at h
      have h2 : Except.map (fun rest => (newest :: rest).reverse)
          (chainWalk store newest.descriptor.protocol newest.contextId
            (store.length + 1) newest.descriptor.parentId []) = Except.ok chain := h
      cases hw : chainWalk store newest.descriptor.protocol newest.contextId
          (store.length + 1) newest.descriptor.parentId [] with
      | error e =>
        rw [hw] at h2
        exact absurd h2 (by simp [Except.map])
      | ok rest =>
        rw [hw] at h2
        have hchain : chain = (newest :: rest).reverse := by
          have := h2.symm
          simpa [Except.map] using this
        refine ⟨newest.descriptor.protocol, ?_⟩
        intro m hm2
        rw [hchain, List.mem_reverse] at hm2
        rcases List.mem_cons.mp hm2 with h1 | h1
        · rw [h1]
        · rcases chainWalk_protocol store newest.descriptor.protocol newest.contextId
              (store.length + 1) newest.descriptor.parentId [] rest hw m h1 with hin | hp
          · exact absurd hin (List.not_mem_nil m)
          · exact hp

/-- Claim C5 (amended): during authorization the protocol URI is taken from
the incoming message's descriptor for a write, and for a read it equals the
protocol of the root (first) element of the ancestor chain built by the
chain walk (every chain element carries the same protocol); the Message Store
is queried for the ProtocolsConfigure messages of that URI and the first
result of the query supplies the definition (the query order is unspecified,
so this is not necessarily the newest one); authorization fails if none
exists. -/
theorem fetch_protocol_definition_C5 :
    (∀ (incoming : StoredMessage) (chain store : List StoredMessage),
      incoming.descriptor.method = "Write" →
      fetchProtocolDefinition incoming chain store =
        (match queryProtocolsConfigure store incoming.descriptor.protocol with
          | [] => Except.error (DwnErr.protocolNotFound incoming.descriptor.protocol)
          | protocolMessage :: _ => getBang protocolMessage.descriptor.definition)) ∧
    (∀ (incoming : StoredMessage) (store chain : List StoredMessage) (root : StoredMessage),
      incoming.descriptor.method = "Read" →
      constructAncestorMessageChain incoming store = Except.ok chain →
      chain.head? = some root →
      fetchProtocolDefinition incoming chain store =
        (match queryProtocolsConfigure store root.descriptor.protocol with
          | [] => Except.error (DwnErr.protocolNotFound root.descriptor.protocol)
          | protocolMessage :: _ => getBang protocolMessage.descriptor.definition)) := by
  constructor
  · intro incoming chain store hmethod
    unfold fetchProtocolDefinition
    rw [hmethod]
    rfl
  · intro incoming store chain root hmethod hchain hroot
    obtain ⟨p, hp⟩ := construct_protocol_const incoming store chain hchain
    have hne : chain ≠ [] := by
      intro hh
      rw [hh] at hroot
      exact Option.noConfusion hroot
    obtain ⟨lastm, hlast, hlastmem⟩ := exists_getLast_mem chain hne
    have hrootmem : root ∈ chain := by
      cases chain with
      | nil => exact absurd rfl hne
      | cons c cs =>
        have : c = root := by simpa using hroot
        rw [← this]
        exact List.mem_cons_self c cs
    have hpeq : lastm.descriptor.protocol = root.descriptor.protocol := by
      rw [hp lastm hlastmem, hp root hrootmem]
    have e4 : (("Read" : String) == "Write") = false := by decide
    unfold fetchProtocolDefinition
    rw [hmethod]
    simp only [e4, Bool.false_eq_true, if_false, hlast, getBang, bind, Except.bind,
      pure, Except.pure]
    rw [hpeq]

/-- The older stored ProtocolsConfigure definition for protocol `proto`. -/
def wPdOld : ProtocolDefinition :=
  ProtocolDefinition.mk [ProtocolRecordDefinition.mk "old" none none] []

/-- The newer stored ProtocolsConfigure definition for protocol `proto`. -/
def wPdNew : ProtocolDefinition :=
  ProtocolDefinition.mk [ProtocolRecordDefinition.mk "new" none none] []

/-- The older ProtocolsConfigure message. -/
def wCfgOld : StoredMessage :=
  StoredMessage.mk
    (RecordsDescriptor.mk "Protocols" "Configure" (some "proto") none none none none
      "application/json" none "2023-01-01T00:00:00.000000Z" (some wPdOld))
    "" none "cfgold" (some "did:alice") "bafycfgold"

/-- The newer ProtocolsConfigure message. -/
def wCfgNew : StoredMessage :=
  StoredMessage.mk
    (RecordsDescriptor.mk "Protocols" "Configure" (some "proto") none none none none
      "application/json" none "2024-01-01T00:00:00.000000Z" (some wPdNew))
    "" none "cfgnew" (some "did:alice") "bafycfgnew"

/-- Store holding both configure messages, older first. -/
def wStoreC5 : List StoredMessage := [wCfgOld, wCfgNew]

/-- An incoming protocol write for `proto` with no parent. -/
def wWriteC5 : StoredMessage :=
  StoredMessage.mk
    (RecordsDescriptor.mk "Records" "Write" (some "proto") (some "old") none none none
      "application/json" none "2024-02-01T00:00:00.000000Z" none)
    "ridc5" (some "ridc5") "ridc5" (some "did:alice") "bafywc5"

theorem fetch_protocol_definition_C5_counterexample :
    fetchProtocolDefinition wWriteC5 [] wStoreC5 = Except.ok wPdOld ∧
    getNewestMessage (queryProtocolsConfigure wStoreC5 (some "proto")) = some wCfgNew ∧
    wCfgNew.descriptor.definition = some wPdNew ∧
    wPdOld.recordDefinitions ≠ wPdNew.recordDefinitions ∧
    strLt wCfgOld.descriptor.messageTimestamp wCfgNew.descriptor.messageTimestamp := by
  refine ⟨rfl, rfl, rfl, by decide, by decide⟩

/-- Store with the target record's initial write and both configures. -/
def wStoreC5read : List StoredMessage := [wMsgInit, wCfgOld, wCfgNew]

theorem fetch_protocol_definition_C5_witness :
    fetchProtocolDefinition wWriteC5 [] wStoreC5 = Except.ok wPdOld ∧
    fetchProtocolDefinition wMsgRead [wMsgInit] wStoreC5read = Except.ok wPdOld := by
  constructor
  · exact (fetch_protocol_definition_C5.1 wWriteC5 [] wStoreC5 rfl).trans rfl
  · exact (fetch_protocol_definition_C5.2 wMsgRead wStoreC5read [wMsgInit] wMsgInit
      rfl rfl rfl).trans rfl
